import Mathlib

/-!
Verification of the `rmp-futures` MessagePack encoder (`src/encode.rs`).

The development shallowly embeds the encoder:
* `EfficientInt` and its `From` conversions (minimal-width integer selection);
* the `MsgPackSink` write operations, modelled as state-threading functions
  over an abstract underlying byte stream `streamWrite`, with an outcome type
  that distinguishes success, I/O error and panic (the source's `assert!` and
  `try_into().unwrap()`).

Machine integers are modelled as `Nat` (unsigned) and `Int` (signed); the
`TryFrom` range checks and the `as` truncations of the source are written out
explicitly.
-/

/-- Big-endian byte encoding of `v` at width `n` bytes (models
`byteorder::BigEndian` writes of an `n`-byte machine integer: only the low
`8*n` bits of `v` contribute). -/
def beBytes : Nat → Nat → List Nat
  | 0, _ => []
  | k + 1, v => beBytes k (v / 256) ++ [v % 256]

/-- Modelled from the spec: the external Format Marker Table (§2).  The byte
values are the fixed MessagePack format constants that the source looks up
through the external `rmp::Marker` enumeration. -/
inductive Marker
  | Null
  | True
  | False
  | FixPos (val : Nat)
  | FixNeg (val : Int)
  | U8 | U16 | U32 | U64
  | I8 | I16 | I32 | I64
  | F32 | F64
  | FixStr (len : Nat)
  | Str8 | Str16 | Str32
  | Bin8 | Bin16 | Bin32
  | FixArray (len : Nat)
  | Array16 | Array32
  | FixMap (len : Nat)
  | Map16 | Map32
  | FixExt1 | FixExt2 | FixExt4 | FixExt8 | FixExt16
  | Ext8 | Ext16 | Ext32
  deriving DecidableEq

/-- The one-byte discriminator of each marker (the external `Marker::to_u8`
lookup table of the MessagePack format). -/
def Marker.toU8 : Marker → Nat
  | .Null => 0xc0
  | .True => 0xc3
  | .False => 0xc2
  | .FixPos val => val
  | .FixNeg val => (val % 256).toNat
  | .U8 => 0xcc
  | .U16 => 0xcd
  | .U32 => 0xce
  | .U64 => 0xcf
  | .I8 => 0xd0
  | .I16 => 0xd1
  | .I32 => 0xd2
  | .I64 => 0xd3
  | .F32 => 0xca
  | .F64 => 0xcb
  | .FixStr len => 0xa0 ||| (len &&& 0x1f)
  | .Str8 => 0xd9
  | .Str16 => 0xda
  | .Str32 => 0xdb
  | .Bin8 => 0xc4
  | .Bin16 => 0xc5
  | .Bin32 => 0xc6
  | .FixArray len => 0x90 ||| (len &&& 0x0f)
  | .Array16 => 0xdc
  | .Array32 => 0xdd
  | .FixMap len => 0x80 ||| (len &&& 0x0f)
  | .Map16 => 0xde
  | .Map32 => 0xdf
  | .FixExt1 => 0xd4
  | .FixExt2 => 0xd5
  | .FixExt4 => 0xd6
  | .FixExt8 => 0xd7
  | .FixExt16 => 0xd8
  | .Ext8 => 0xc7
  | .Ext16 => 0xc8
  | .Ext32 => 0xc9

/-- `EfficientInt` from `src/encode.rs`: the smallest representation of an
integer based on its value.  Unsigned payloads are `Nat`, signed payloads are
`Int`. -/
inductive EfficientInt
  | FixPos (val : Nat)
  | U8 (val : Nat)
  | U16 (val : Nat)
  | U32 (val : Nat)
  | U64 (val : Nat)
  | FixNeg (val : Int)
  | I8 (val : Int)
  | I16 (val : Int)
  | I32 (val : Int)
  | I64 (val : Int)
  deriving DecidableEq

namespace EfficientInt

/-- `impl From<u8> for EfficientInt`.  `val & 0x7f == val` is the source's
fixint test. -/
def fromU8 (val : Nat) : EfficientInt :=
  if val &&& 0x7f = val then .FixPos val else .U8 val

/-- `impl From<i8> for EfficientInt`.  `u8::try_from(val)` succeeds iff
`0 ≤ val < 256`; `val as u8` is the two's-complement low byte
`(val % 256).toNat`; the negative-fixint test is
`val as u8 & 0b1110_0000 == 0b1110_0000`. -/
def fromI8 (val : Int) : EfficientInt :=
  if 0 ≤ val ∧ val < 256 then fromU8 val.toNat
  else if (val % 256).toNat &&& 0xe0 = 0xe0 then .FixNeg val
  else .I8 val

/-- `impl From<u16> for EfficientInt`. -/
def fromU16 (val : Nat) : EfficientInt :=
  if val < 256 then fromU8 val else .U16 val

/-- `impl From<i16> for EfficientInt`. -/
def fromI16 (val : Int) : EfficientInt :=
  if 0 ≤ val ∧ val < 65536 then fromU16 val.toNat
  else if -128 ≤ val ∧ val < 128 then fromI8 val
  else .I16 val

/-- `impl From<u32> for EfficientInt`. -/
def fromU32 (val : Nat) : EfficientInt :=
  if val < 65536 then fromU16 val else .U32 val

/-- `impl From<i32> for EfficientInt`. -/
def fromI32 (val : Int) : EfficientInt :=
  if 0 ≤ val ∧ val < 4294967296 then fromU32 val.toNat
  else if -32768 ≤ val ∧ val < 32768 then fromI16 val
  else .I32 val

/-- `impl From<u64> for EfficientInt`. -/
def fromU64 (val : Nat) : EfficientInt :=
  if val < 4294967296 then fromU32 val else .U64 val

/-- `impl From<i64> for EfficientInt`. -/
def fromI64 (val : Int) : EfficientInt :=
  if 0 ≤ val ∧ val < 18446744073709551616 then fromU64 val.toNat
  else if -2147483648 ≤ val ∧ val < 2147483648 then fromI32 val
  else .I64 val

/-- The mathematical value an `EfficientInt` variant represents. -/
def value : EfficientInt → Int
  | .FixPos v => v
  | .U8 v => v
  | .U16 v => v
  | .U32 v => v
  | .U64 v => v
  | .FixNeg v => v
  | .I8 v => v
  | .I16 v => v
  | .I32 v => v
  | .I64 v => v

/-- A variant is valid when its payload lies in the range of the machine
integer (or fixint subrange) the variant encodes. -/
def isValid : EfficientInt → Prop
  | .FixPos v => v < 128
  | .U8 v => v < 256
  | .U16 v => v < 65536
  | .U32 v => v < 4294967296
  | .U64 v => v < 18446744073709551616
  | .FixNeg v => -32 ≤ v ∧ v < 0
  | .I8 v => -128 ≤ v ∧ v < 128
  | .I16 v => -32768 ≤ v ∧ v < 32768
  | .I32 v => -2147483648 ≤ v ∧ v < 2147483648
  | .I64 v => -9223372036854775808 ≤ v ∧ v < 9223372036854775808

instance : DecidablePred isValid := by
  intro e
  cases e <;> (simp only [isValid]) <;> infer_instance

/-- Total encoded size of a variant: marker byte plus payload bytes. -/
def size : EfficientInt → Nat
  | .FixPos _ => 1
  | .FixNeg _ => 1
  | .U8 _ => 2
  | .I8 _ => 2
  | .U16 _ => 3
  | .I16 _ => 3
  | .U32 _ => 5
  | .I32 _ => 5
  | .U64 _ => 9
  | .I64 _ => 9

end EfficientInt

/-- The eight native machine-integer types the `From` conversions cover. -/
inductive NativeTy
  | u8 | u16 | u32 | u64 | i8 | i16 | i32 | i64
  deriving DecidableEq

/-- The value range of each native type, as a predicate on `Int`. -/
def NativeTy.inRange : NativeTy → Int → Prop
  | .u8, v => 0 ≤ v ∧ v < 256
  | .u16, v => 0 ≤ v ∧ v < 65536
  | .u32, v => 0 ≤ v ∧ v < 4294967296
  | .u64, v => 0 ≤ v ∧ v < 18446744073709551616
  | .i8, v => -128 ≤ v ∧ v < 128
  | .i16, v => -32768 ≤ v ∧ v < 32768
  | .i32, v => -2147483648 ≤ v ∧ v < 2147483648
  | .i64, v => -9223372036854775808 ≤ v ∧ v < 9223372036854775808

instance (t : NativeTy) (v : Int) : Decidable (t.inRange v) := by
  cases t <;> (simp only [NativeTy.inRange]) <;> infer_instance

/-- The `From` conversion of each native type, applied to a mathematical
value (unsigned conversions receive `v.toNat`). -/
def NativeTy.conv : NativeTy → Int → EfficientInt
  | .u8, v => .fromU8 v.toNat
  | .u16, v => .fromU16 v.toNat
  | .u32, v => .fromU32 v.toNat
  | .u64, v => .fromU64 v.toNat
  | .i8, v => .fromI8 v
  | .i16, v => .fromI16 v
  | .i32, v => .fromI32 v
  | .i64, v => .fromI64 v

example : EfficientInt.fromU8 127 = .FixPos 127 := by decide
example : EfficientInt.fromI8 (-33) = .I8 (-33) := by decide
example : EfficientInt.fromI64 (-32) = .FixNeg (-32) := by decide
example : EfficientInt.fromI64 4294967296 = .U64 4294967296 := by decide

set_option maxRecDepth 8192

namespace EfficientInt

lemma and_x7f_eq_self_of_lt {n : Nat} (h : n < 128) : n &&& 0x7f = n := by
  have hb : ∀ m : Fin 128, m.val &&& 0x7f = m.val := by decide
  exact hb ⟨n, h⟩

lemma and_x7f_ne_self_of_ge {n : Nat} (h1 : 128 ≤ n) (h2 : n < 256) :
    ¬ n &&& 0x7f = n := by
  have hb : ∀ m : Fin 256, 128 ≤ m.val → ¬ m.val &&& 0x7f = m.val := by decide
  exact hb ⟨n, h2⟩ h1

lemma and_xe0_eq_of_ge {n : Nat} (h1 : 224 ≤ n) (h2 : n < 256) : n &&& 0xe0 = 0xe0 := by
  have hb : ∀ m : Fin 256, 224 ≤ m.val → m.val &&& 0xe0 = 0xe0 := by decide
  exact hb ⟨n, h2⟩ h1

lemma and_xe0_ne_of_lt {n : Nat} (h : n < 224) : ¬ n &&& 0xe0 = 0xe0 := by
  have hb : ∀ m : Fin 224, ¬ m.val &&& 0xe0 = 0xe0 := by decide
  exact hb ⟨n, h⟩

lemma fromU8_lo {v : Nat} (h : v < 128) : fromU8 v = .FixPos v := by
  simp only [fromU8]
  rw [if_pos (and_x7f_eq_self_of_lt h)]

lemma fromU8_hi {v : Nat} (h1 : 128 ≤ v) (h2 : v < 256) : fromU8 v = .U8 v := by
  simp only [fromU8]
  rw [if_neg (and_x7f_ne_self_of_ge h1 h2)]

lemma fromU16_eq_fromU8 {v : Nat} (h : v < 256) : fromU16 v = fromU8 v := by
  simp only [fromU16]
  rw [if_pos h]

lemma fromU16_hi {v : Nat} (h : 256 ≤ v) : fromU16 v = .U16 v := by
  simp only [fromU16]
  rw [if_neg (by omega)]

lemma fromU32_eq_fromU16 {v : Nat} (h : v < 65536) : fromU32 v = fromU16 v := by
  simp only [fromU32]
  rw [if_pos h]

lemma fromU32_hi {v : Nat} (h : 65536 ≤ v) : fromU32 v = .U32 v := by
  simp only [fromU32]
  rw [if_neg (by omega)]

lemma fromU64_eq_fromU32 {v : Nat} (h : v < 4294967296) : fromU64 v = fromU32 v := by
  simp only [fromU64]
  rw [if_pos h]

lemma fromU64_hi {v : Nat} (h : 4294967296 ≤ v) : fromU64 v = .U64 v := by
  simp only [fromU64]
  rw [if_neg (by omega)]

lemma fromI8_eq_fromU8 {v : Int} (h0 : 0 ≤ v) (h : v < 256) :
    fromI8 v = fromU8 v.toNat := by
  simp only [fromI8]
  rw [if_pos ⟨h0, h⟩]

lemma fromI8_fixneg {v : Int} (h1 : -32 ≤ v) (h2 : v < 0) : fromI8 v = .FixNeg v := by
  simp only [fromI8]
  rw [if_neg (by omega), if_pos (and_xe0_eq_of_ge (by omega) (by omega))]

lemma fromI8_i8 {v : Int} (h1 : -128 ≤ v) (h2 : v < -32) : fromI8 v = .I8 v := by
  simp only [fromI8]
  rw [if_neg (by omega), if_neg (and_xe0_ne_of_lt (by omega))]

lemma fromI16_eq_fromU16 {v : Int} (h0 : 0 ≤ v) (h : v < 65536) :
    fromI16 v = fromU16 v.toNat := by
  simp only [fromI16]
  rw [if_pos ⟨h0, h⟩]

lemma fromI16_eq_fromI8 {v : Int} (h1 : -128 ≤ v) (h2 : v < 0) :
    fromI16 v = fromI8 v := by
  simp only [fromI16]
  rw [if_neg (by omega), if_pos ⟨h1, by omega⟩]

lemma fromI16_i16 {v : Int} (h1 : -32768 ≤ v) (h2 : v < -128) : fromI16 v = .I16 v := by
  simp only [fromI16]
  rw [if_neg (by omega), if_neg (by omega)]

lemma fromI32_eq_fromU32 {v : Int} (h0 : 0 ≤ v) (h : v < 4294967296) :
    fromI32 v = fromU32 v.toNat := by
  simp only [fromI32]
  rw [if_pos ⟨h0, h⟩]

lemma fromI32_eq_fromI16 {v : Int} (h1 : -32768 ≤ v) (h2 : v < 0) :
    fromI32 v = fromI16 v := by
  simp only [fromI32]
  rw [if_neg (by omega), if_pos ⟨h1, by omega⟩]

lemma fromI32_i32 {v : Int} (h1 : -2147483648 ≤ v) (h2 : v < -32768) :
    fromI32 v = .I32 v := by
  simp only [fromI32]
  rw [if_neg (by omega), if_neg (by omega)]

lemma fromI64_eq_fromU64 {v : Int} (h0 : 0 ≤ v) (h : v < 18446744073709551616) :
    fromI64 v = fromU64 v.toNat := by
  simp only [fromI64]
  rw [if_pos ⟨h0, h⟩]

lemma fromI64_eq_fromI32 {v : Int} (h1 : -2147483648 ≤ v) (h2 : v < 0) :
    fromI64 v = fromI32 v := by
  simp only [fromI64]
  rw [if_neg (by omega), if_pos ⟨h1, by omega⟩]

lemma fromI64_i64 {v : Int} (h1 : -9223372036854775808 ≤ v) (h2 : v < -2147483648) :
    fromI64 v = .I64 v := by
  simp only [fromI64]
  rw [if_neg (by omega), if_neg (by omega)]

end EfficientInt

/-- Every native-width conversion agrees with the widest signed conversion on
the native type's range: the chain of `TryFrom` delegations collapses to a
single function of the mathematical value. -/
lemma NativeTy.conv_eq_fromI64 (t : NativeTy) (v : Int) (h : t.inRange v) :
    t.conv v = EfficientInt.fromI64 v := by
  cases t <;> simp only [NativeTy.inRange] at h <;> simp only [NativeTy.conv]
  case u8 =>
    rw [EfficientInt.fromI64_eq_fromU64 h.1 (by omega),
      EfficientInt.fromU64_eq_fromU32 (by omega),
      EfficientInt.fromU32_eq_fromU16 (by omega),
      EfficientInt.fromU16_eq_fromU8 (by omega)]
  case u16 =>
    rw [EfficientInt.fromI64_eq_fromU64 h.1 (by omega),
      EfficientInt.fromU64_eq_fromU32 (by omega),
      EfficientInt.fromU32_eq_fromU16 (by omega)]
  case u32 =>
    rw [EfficientInt.fromI64_eq_fromU64 h.1 (by omega),
      EfficientInt.fromU64_eq_fromU32 (by omega)]
  case u64 =>
    rw [EfficientInt.fromI64_eq_fromU64 h.1 (by omega)]
  case i8 =>
    by_cases h0 : 0 ≤ v
    · rw [EfficientInt.fromI64_eq_fromU64 h0 (by omega),
        EfficientInt.fromU64_eq_fromU32 (by omega),
        EfficientInt.fromU32_eq_fromU16 (by omega),
        EfficientInt.fromU16_eq_fromU8 (by omega),
        EfficientInt.fromI8_eq_fromU8 h0 (by omega)]
    · rw [EfficientInt.fromI64_eq_fromI32 (by omega) (by omega),
        EfficientInt.fromI32_eq_fromI16 (by omega) (by omega),
        EfficientInt.fromI16_eq_fromI8 (by omega) (by omega)]
  case i16 =>
    by_cases h0 : 0 ≤ v
    · rw [EfficientInt.fromI64_eq_fromU64 h0 (by omega),
        EfficientInt.fromU64_eq_fromU32 (by omega),
        EfficientInt.fromU32_eq_fromU16 (by omega),
        EfficientInt.fromI16_eq_fromU16 h0 (by omega)]
    · rw [EfficientInt.fromI64_eq_fromI32 (by omega) (by omega),
        EfficientInt.fromI32_eq_fromI16 (by omega) (by omega)]
  case i32 =>
    by_cases h0 : 0 ≤ v
    · rw [EfficientInt.fromI64_eq_fromU64 h0 (by omega),
        EfficientInt.fromU64_eq_fromU32 (by omega),
        EfficientInt.fromI32_eq_fromU32 h0 (by omega)]
    · rw [EfficientInt.fromI64_eq_fromI32 (by omega) (by omega)]

namespace EfficientInt

/-- The minimal number of encoded bytes any valid variant representing `v`
can occupy. -/
def minSizeOf (v : Int) : Nat :=
  if -32 ≤ v ∧ v < 128 then 1
  else if -128 ≤ v ∧ v < 256 then 2
  else if -32768 ≤ v ∧ v < 65536 then 3
  else if -2147483648 ≤ v ∧ v < 4294967296 then 5
  else 9

lemma minSizeOf_le_size (e : EfficientInt) (h : e.isValid) :
    minSizeOf e.value ≤ e.size := by
  cases e <;>
    (simp only [isValid] at h
     simp only [value, size, minSizeOf]
     split_ifs <;> omega)

/-- Interval characterization of the widest conversion, together with
exactness and minimality of the chosen size. -/
lemma fromI64_spec (v : Int)
    (hlo : -9223372036854775808 ≤ v) (hhi : v < 18446744073709551616) :
    (fromI64 v).isValid ∧ (fromI64 v).value = v ∧ (fromI64 v).size = minSizeOf v := by
  by_cases h0 : 0 ≤ v
  · rw [fromI64_eq_fromU64 h0 hhi]
    by_cases hc1 : v < 128
    · rw [fromU64_eq_fromU32 (by omega), fromU32_eq_fromU16 (by omega),
        fromU16_eq_fromU8 (by omega), fromU8_lo (by omega)]
      refine ⟨by simp only [isValid]; omega, by simp only [value]; omega, ?_⟩
      simp only [size, minSizeOf]
      split_ifs <;> omega
    · by_cases hc2 : v < 256
      · rw [fromU64_eq_fromU32 (by omega), fromU32_eq_fromU16 (by omega),
          fromU16_eq_fromU8 (by omega), fromU8_hi (by omega) (by omega)]
        refine ⟨by simp only [isValid]; omega, by simp only [value]; omega, ?_⟩
        simp only [size, minSizeOf]
        split_ifs <;> omega
      · by_cases hc3 : v < 65536
        · rw [fromU64_eq_fromU32 (by omega), fromU32_eq_fromU16 (by omega),
            fromU16_hi (by omega)]
          refine ⟨by simp only [isValid]; omega, by simp only [value]; omega, ?_⟩
          simp only [size, minSizeOf]
          split_ifs <;> omega
        · by_cases hc4 : v < 4294967296
          · rw [fromU64_eq_fromU32 (by omega), fromU32_hi (by omega)]
            refine ⟨by simp only [isValid]; omega, by simp only [value]; omega, ?_⟩
            simp only [size, minSizeOf]
            split_ifs <;> omega
          · rw [fromU64_hi (by omega)]
            refine ⟨by simp only [isValid]; omega, by simp only [value]; omega, ?_⟩
            simp only [size, minSizeOf]
            split_ifs <;> omega
  · by_cases hc1 : -32 ≤ v
    · rw [fromI64_eq_fromI32 (by omega) (by omega), fromI32_eq_fromI16 (by omega) (by omega),
        fromI16_eq_fromI8 (by omega) (by omega), fromI8_fixneg (by omega) (by omega)]
      refine ⟨by simp only [isValid]; omega, by simp only [value], ?_⟩
      simp only [size, minSizeOf]
      split_ifs <;> omega
    · by_cases hc2 : -128 ≤ v
      · rw [fromI64_eq_fromI32 (by omega) (by omega), fromI32_eq_fromI16 (by omega) (by omega),
          fromI16_eq_fromI8 (by omega) (by omega), fromI8_i8 (by omega) (by omega)]
        refine ⟨by simp only [isValid]; omega, by simp only [value], ?_⟩
        simp only [size, minSizeOf]
        split_ifs <;> omega
      · by_cases hc3 : -32768 ≤ v
        · rw [fromI64_eq_fromI32 (by omega) (by omega), fromI32_eq_fromI16 (by omega) (by omega),
            fromI16_i16 (by omega) (by omega)]
          refine ⟨by simp only [isValid]; omega, by simp only [value], ?_⟩
          simp only [size, minSizeOf]
          split_ifs <;> omega
        · by_cases hc4 : -2147483648 ≤ v
          · rw [fromI64_eq_fromI32 (by omega) (by omega), fromI32_i32 (by omega) (by omega)]
            refine ⟨by simp only [isValid]; omega, by simp only [value], ?_⟩
            simp only [size, minSizeOf]
            split_ifs <;> omega
          · rw [fromI64_i64 (by omega) (by omega)]
            refine ⟨by simp only [isValid]; omega, by simp only [value], ?_⟩
            simp only [size, minSizeOf]
            split_ifs <;> omega

end EfficientInt

/-- Each native range is contained in the union of the `i64` and `u64`
ranges handled by `fromI64`. -/
lemma NativeTy.inRange_bounds (t : NativeTy) (v : Int) (h : t.inRange v) :
    -9223372036854775808 ≤ v ∧ v < 18446744073709551616 := by
  cases t <;> simp only [NativeTy.inRange] at h <;> omega

/-- Panic reasons of the encoder: the `try_into().unwrap()` length
conversions, the `assert!(ty >= 0)` extension-type check, and the
`unreachable!()` arm of `write_value`. -/
inductive Panic
  | lenOverflow
  | negTypeTag
  | unreachableArm
  deriving DecidableEq

/-- Outcome of one write operation.  Success returns ownership of the
underlying stream; an I/O error or a panic aborts the chain.  The stream state
is carried in every outcome so the bytes actually pushed to the underlying
stream stay observable. -/
inductive WOut (σ : Type) (ε : Type)
  | ok (s : σ)
  | ioError (e : ε) (s : σ)
  | panicked (p : Panic) (s : σ)
  deriving DecidableEq

variable {σ ε : Type}

/-- Sequencing of the source's `?` operator: run the continuation only on
success. -/
def WOut.andThen : WOut σ ε → (σ → WOut σ ε) → WOut σ ε
  | .ok s, f => f s
  | .ioError e s, _ => .ioError e s
  | .panicked p s, _ => .panicked p s

@[simp] lemma WOut.andThen_ok (s : σ) (f : σ → WOut σ ε) :
    (WOut.ok s).andThen f = f s := rfl

@[simp] lemma WOut.andThen_ioError (e : ε) (s : σ) (f : σ → WOut σ ε) :
    (WOut.ioError e s).andThen f = .ioError e s := rfl

@[simp] lemma WOut.andThen_panicked (p : Panic) (s : σ) (f : σ → WOut σ ε) :
    (WOut.panicked p s).andThen f = .panicked p s := rfl

lemma WOut.andThen_pure (w : WOut σ ε) : w.andThen (fun s => .ok s) = w := by
  cases w <;> rfl

lemma WOut.andThen_assoc (w : WOut σ ε) (f g : σ → WOut σ ε) :
    (w.andThen f).andThen g = w.andThen (fun s => (f s).andThen g) := by
  cases w <;> rfl

namespace MsgPackSink

variable (sw : σ → List Nat → Except ε Unit × σ)

/-- `AsyncWriteExt::write_all` on the underlying stream: `sw` decides, per
call, whether the bytes are accepted (new stream state) or an I/O error is
reported. -/
def write_all (s : σ) (bs : List Nat) : WOut σ ε :=
  match sw s bs with
  | (.ok _, s') => .ok s'
  | (.error e, s') => .ioError e s'

/-- `write_u8`. -/
def write_u8 (s : σ) (val : Nat) : WOut σ ε := write_all sw s [val]

/-- `write_u16` (`BigEndian::write_u16`). -/
def write_u16 (s : σ) (val : Nat) : WOut σ ε := write_all sw s (beBytes 2 val)

/-- `write_u32` (`BigEndian::write_u32`). -/
def write_u32 (s : σ) (val : Nat) : WOut σ ε := write_all sw s (beBytes 4 val)

/-- `write_u64` (`BigEndian::write_u64`). -/
def write_u64 (s : σ) (val : Nat) : WOut σ ε := write_all sw s (beBytes 8 val)

/-- `write_i8` (`[val as u8]`). -/
def write_i8 (s : σ) (val : Int) : WOut σ ε := write_all sw s [(val % 256).toNat]

/-- `write_i16` (`BigEndian::write_i16`, two's complement). -/
def write_i16 (s : σ) (val : Int) : WOut σ ε :=
  write_all sw s (beBytes 2 (val % 65536).toNat)

/-- `write_i32` (`BigEndian::write_i32`, two's complement). -/
def write_i32 (s : σ) (val : Int) : WOut σ ε :=
  write_all sw s (beBytes 4 (val % 4294967296).toNat)

/-- `write_i64` (`BigEndian::write_i64`, two's complement). -/
def write_i64 (s : σ) (val : Int) : WOut σ ε :=
  write_all sw s (beBytes 8 (val % 18446744073709551616).toNat)

/-- `write_marker`. -/
def write_marker (s : σ) (m : Marker) : WOut σ ε := write_u8 sw s m.toU8

/-- `write_nil`. -/
def write_nil (s : σ) : WOut σ ε := write_marker sw s .Null

/-- `write_bool`. -/
def write_bool (s : σ) (val : Bool) : WOut σ ε :=
  if val then write_marker sw s .True else write_marker sw s .False

/-- `write_efficient_int`: marker byte, then the payload at the variant's
width (nothing for the fixed forms). -/
def write_efficient_int (s : σ) : EfficientInt → WOut σ ε
  | .FixPos val => write_marker sw s (.FixPos val)
  | .U8 val => (write_marker sw s .U8).andThen fun s' => write_u8 sw s' val
  | .U16 val => (write_marker sw s .U16).andThen fun s' => write_u16 sw s' val
  | .U32 val => (write_marker sw s .U32).andThen fun s' => write_u32 sw s' val
  | .U64 val => (write_marker sw s .U64).andThen fun s' => write_u64 sw s' val
  | .FixNeg val => write_marker sw s (.FixNeg val)
  | .I8 val => (write_marker sw s .I8).andThen fun s' => write_i8 sw s' val
  | .I16 val => (write_marker sw s .I16).andThen fun s' => write_i16 sw s' val
  | .I32 val => (write_marker sw s .I32).andThen fun s' => write_i32 sw s' val
  | .I64 val => (write_marker sw s .I64).andThen fun s' => write_i64 sw s' val

/-- `write_int`: the source converts via `Into<EfficientInt>` first; callers
here pass the already-converted `NativeTy.conv` result. -/
def write_int (s : σ) (val : EfficientInt) : WOut σ ε := write_efficient_int sw s val

/-- `write_f32`; the `f32` argument is modelled by its IEEE-754 bit pattern
`bits` (floating point itself is not embedded). -/
def write_f32 (s : σ) (bits : Nat) : WOut σ ε :=
  (write_marker sw s .F32).andThen fun s' => write_all sw s' (beBytes 4 bits)

/-- `write_f64`; the `f64` argument is modelled by its IEEE-754 bit pattern. -/
def write_f64 (s : σ) (bits : Nat) : WOut σ ε :=
  (write_marker sw s .F64).andThen fun s' => write_all sw s' (beBytes 8 bits)

/-- `write_array_len` (`len` is a `u32`). -/
def write_array_len (s : σ) (len : Nat) : WOut σ ε :=
  if len ≤ 15 then write_marker sw s (.FixArray len)
  else if len ≤ 65535 then
    (write_marker sw s .Array16).andThen fun s' => write_u16 sw s' len
  else
    (write_marker sw s .Array32).andThen fun s' => write_u32 sw s' len

/-- `write_map_len` (`len` is a `u32`). -/
def write_map_len (s : σ) (len : Nat) : WOut σ ε :=
  if len ≤ 15 then write_marker sw s (.FixMap len)
  else if len ≤ 65535 then
    (write_marker sw s .Map16).andThen fun s' => write_u16 sw s' len
  else
    (write_marker sw s .Map32).andThen fun s' => write_u32 sw s' len

/-- `write_bin_len` (`len` is a `u32`; `u8::try_from` / `u16::try_from`
select the length class). -/
def write_bin_len (s : σ) (len : Nat) : WOut σ ε :=
  if len < 256 then
    (write_marker sw s .Bin8).andThen fun s' => write_u8 sw s' len
  else if len < 65536 then
    (write_marker sw s .Bin16).andThen fun s' => write_u16 sw s' len
  else
    (write_marker sw s .Bin32).andThen fun s' => write_u32 sw s' len

/-- `write_bin`: `data.len().try_into().unwrap()` panics on a length that
does not fit a `u32`, before any byte is written. -/
def write_bin (s : σ) (data : List Nat) : WOut σ ε :=
  if data.length < 4294967296 then
    (write_bin_len sw s data.length).andThen fun s' => write_all sw s' data
  else .panicked .lenOverflow s

/-- `write_str_len`. -/
def write_str_len (s : σ) (len : Nat) : WOut σ ε :=
  if len < 256 then
    if len < 32 then write_marker sw s (.FixStr len)
    else (write_marker sw s .Str8).andThen fun s' => write_u8 sw s' len
  else if len < 65536 then
    (write_marker sw s .Str16).andThen fun s' => write_u16 sw s' len
  else
    (write_marker sw s .Str32).andThen fun s' => write_u32 sw s' len

/-- `write_str_bytes`: length-conversion unwrap, then header, then payload. -/
def write_str_bytes (s : σ) (string : List Nat) : WOut σ ε :=
  if string.length < 4294967296 then
    (write_str_len sw s string.length).andThen fun s' => write_all sw s' string
  else .panicked .lenOverflow s

/-- `write_str` (`str::as_bytes` is the identity on the byte-list model). -/
def write_str (s : σ) (string : List Nat) : WOut σ ε := write_str_bytes sw s string

/-- `write_ext_meta`: asserts `ty ≥ 0` before writing anything, then the
marker/length header, then the type tag as the last header byte. -/
def write_ext_meta (s : σ) (len : Nat) (ty : Int) : WOut σ ε :=
  if ty < 0 then .panicked .negTypeTag s
  else
    (if len < 256 then
      if len = 1 then write_marker sw s .FixExt1
      else if len = 2 then write_marker sw s .FixExt2
      else if len = 4 then write_marker sw s .FixExt4
      else if len = 8 then write_marker sw s .FixExt8
      else if len = 16 then write_marker sw s .FixExt16
      else (write_marker sw s .Ext8).andThen fun s' => write_u8 sw s' len
    else if len < 65536 then
      (write_marker sw s .Ext16).andThen fun s' => write_u16 sw s' len
    else
      (write_marker sw s .Ext32).andThen fun s' => write_u32 sw s' len).andThen
      fun s' => write_u8 sw s' (ty % 256).toNat

/-- `write_ext`: length-conversion unwrap (argument evaluation, so it fires
before `write_ext_meta` runs), then header plus payload. -/
def write_ext (s : σ) (data : List Nat) (ty : Int) : WOut σ ε :=
  if data.length < 4294967296 then
    (write_ext_meta sw s data.length ty).andThen fun s' => write_all sw s' data
  else .panicked .lenOverflow s

end MsgPackSink

/-- A pure underlying stream: every write succeeds and appends. -/
def pureStream (s : List Nat) (bs : List Nat) : Except Empty Unit × List Nat :=
  (.ok ⟨⟩, s ++ bs)

@[simp] lemma write_all_pureStream (s bs : List Nat) :
    MsgPackSink.write_all pureStream s bs = .ok (s ++ bs) := rfl

/-- A fault-injecting underlying stream: a capacity-limited sink whose
`write_all` accepts a chunk only if it fits, and otherwise reports an I/O
error leaving the stream unchanged. -/
structure FW where
  written : List Nat
  cap : Nat
  deriving DecidableEq

/-- The fault-injecting stream's write behaviour. -/
def FW.stream (w : FW) (bs : List Nat) : Except Unit Unit × FW :=
  if w.written.length + bs.length ≤ w.cap then (.ok ⟨⟩, ⟨w.written ++ bs, w.cap⟩)
  else (.error (), w)

example : MsgPackSink.write_array_len pureStream [] 5 = .ok [0x95] := by decide
example : MsgPackSink.write_nil pureStream [] = .ok [0xc0] := by decide
example : MsgPackSink.write_int pureStream [] (.fromU64 4294967296) =
    .ok [0xcf, 0, 0, 0, 1, 0, 0, 0, 0] := by decide

namespace EfficientInt

/-- The marker of each variant. -/
def markerOf : EfficientInt → Marker
  | .FixPos v => .FixPos v
  | .U8 _ => .U8
  | .U16 _ => .U16
  | .U32 _ => .U32
  | .U64 _ => .U64
  | .FixNeg v => .FixNeg v
  | .I8 _ => .I8
  | .I16 _ => .I16
  | .I32 _ => .I32
  | .I64 _ => .I64

/-- The payload bytes of each variant: big-endian at the variant's width
(two's complement for the signed ones), nothing for the fixed forms. -/
def payloadBytes : EfficientInt → List Nat
  | .FixPos _ => []
  | .FixNeg _ => []
  | .U8 v => beBytes 1 v
  | .U16 v => beBytes 2 v
  | .U32 v => beBytes 4 v
  | .U64 v => beBytes 8 v
  | .I8 v => beBytes 1 (v % 256).toNat
  | .I16 v => beBytes 2 (v % 65536).toNat
  | .I32 v => beBytes 4 (v % 4294967296).toNat
  | .I64 v => beBytes 8 (v % 18446744073709551616).toNat

/-- Marker byte followed by payload bytes. -/
def encBytes (e : EfficientInt) : List Nat := e.markerOf.toU8 :: e.payloadBytes

end EfficientInt

namespace MsgPackSink

variable (sw : σ → List Nat → Except ε Unit × σ)

/-- The sequence of `write_all` calls an operation performs, run in order and
aborted at the first failure — the shape shared by every write operation. -/
def runChunks (s : σ) : List (List Nat) → WOut σ ε
  | [] => .ok s
  | c :: cs => (write_all sw s c).andThen fun s' => runChunks s' cs

lemma runChunks_append (s : σ) (cs1 cs2 : List (List Nat)) :
    runChunks sw s (cs1 ++ cs2) =
      (runChunks sw s cs1).andThen fun s' => runChunks sw s' cs2 := by
  induction cs1 generalizing s with
  | nil => simp [runChunks]
  | cons c cs ih =>
    simp only [List.cons_append, runChunks, WOut.andThen_assoc]
    exact congrArg _ (funext fun s' => ih s')

/-- The `write_all` chunk sequence of `write_efficient_int`. -/
def intChunks : EfficientInt → List (List Nat)
  | .FixPos v => [[(Marker.FixPos v).toU8]]
  | .U8 v => [[0xcc], [v]]
  | .U16 v => [[0xcd], beBytes 2 v]
  | .U32 v => [[0xce], beBytes 4 v]
  | .U64 v => [[0xcf], beBytes 8 v]
  | .FixNeg v => [[(Marker.FixNeg v).toU8]]
  | .I8 v => [[0xd0], [(v % 256).toNat]]
  | .I16 v => [[0xd1], beBytes 2 (v % 65536).toNat]
  | .I32 v => [[0xd2], beBytes 4 (v % 4294967296).toNat]
  | .I64 v => [[0xd3], beBytes 8 (v % 18446744073709551616).toNat]

/-- The chunk sequence of `write_array_len`. -/
def arrayLenChunks (len : Nat) : List (List Nat) :=
  if len ≤ 15 then [[(Marker.FixArray len).toU8]]
  else if len ≤ 65535 then [[0xdc], beBytes 2 len]
  else [[0xdd], beBytes 4 len]

/-- The chunk sequence of `write_map_len`. -/
def mapLenChunks (len : Nat) : List (List Nat) :=
  if len ≤ 15 then [[(Marker.FixMap len).toU8]]
  else if len ≤ 65535 then [[0xde], beBytes 2 len]
  else [[0xdf], beBytes 4 len]

/-- The chunk sequence of `write_bin_len`. -/
def binLenChunks (len : Nat) : List (List Nat) :=
  if len < 256 then [[0xc4], [len]]
  else if len < 65536 then [[0xc5], beBytes 2 len]
  else [[0xc6], beBytes 4 len]

/-- The chunk sequence of `write_str_len`. -/
def strLenChunks (len : Nat) : List (List Nat) :=
  if len < 256 then
    if len < 32 then [[(Marker.FixStr len).toU8]]
    else [[0xd9], [len]]
  else if len < 65536 then [[0xda], beBytes 2 len]
  else [[0xdb], beBytes 4 len]

/-- The chunk sequence of `write_ext_meta` for a non-negative type tag. -/
def extMetaChunks (len : Nat) (ty : Int) : List (List Nat) :=
  (if len < 256 then
    if len = 1 then [[0xd4]]
    else if len = 2 then [[0xd5]]
    else if len = 4 then [[0xd6]]
    else if len = 8 then [[0xd7]]
    else if len = 16 then [[0xd8]]
    else [[0xc7], [len]]
  else if len < 65536 then [[0xc8], beBytes 2 len]
  else [[0xc9], beBytes 4 len]) ++ [[(ty % 256).toNat]]

lemma write_efficient_int_chunks (s : σ) (e : EfficientInt) :
    write_efficient_int sw s e = runChunks sw s (intChunks e) := by
  cases e <;>
    simp [write_efficient_int, intChunks, runChunks, write_marker, write_u8,
      write_u16, write_u32, write_u64, write_i8, write_i16, write_i32, write_i64,
      Marker.toU8, WOut.andThen_pure]

lemma write_array_len_chunks (s : σ) (len : Nat) :
    write_array_len sw s len = runChunks sw s (arrayLenChunks len) := by
  simp only [write_array_len, arrayLenChunks]
  split_ifs <;>
    simp [runChunks, write_marker, write_u8, write_u16, write_u32, Marker.toU8,
      WOut.andThen_pure]

lemma write_map_len_chunks (s : σ) (len : Nat) :
    write_map_len sw s len = runChunks sw s (mapLenChunks len) := by
  simp only [write_map_len, mapLenChunks]
  split_ifs <;>
    simp [runChunks, write_marker, write_u8, write_u16, write_u32, Marker.toU8,
      WOut.andThen_pure]

lemma write_bin_len_chunks (s : σ) (len : Nat) :
    write_bin_len sw s len = runChunks sw s (binLenChunks len) := by
  simp only [write_bin_len, binLenChunks]
  split_ifs <;>
    simp [runChunks, write_marker, write_u8, write_u16, write_u32, Marker.toU8,
      WOut.andThen_pure]

lemma write_str_len_chunks (s : σ) (len : Nat) :
    write_str_len sw s len = runChunks sw s (strLenChunks len) := by
  simp only [write_str_len, strLenChunks]
  split_ifs <;>
    simp [runChunks, write_marker, write_u8, write_u16, write_u32, Marker.toU8,
      WOut.andThen_pure]

lemma write_ext_meta_chunks (s : σ) (len : Nat) (ty : Int) (h : 0 ≤ ty) :
    write_ext_meta sw s len ty = runChunks sw s (extMetaChunks len ty) := by
  simp only [write_ext_meta, extMetaChunks]
  rw [if_neg (by omega), runChunks_append]
  congr 1
  · split_ifs <;>
      simp [runChunks, write_marker, write_u8, write_u16, write_u32, Marker.toU8,
        WOut.andThen_pure]
  · funext s'
    simp [runChunks, write_u8, WOut.andThen_pure]

end MsgPackSink

namespace MsgPackSink

variable (sw : σ → List Nat → Except ε Unit × σ)

/-- The public write operations of the sink named by the failure-semantics
contract, with their arguments. -/
inductive WriteOp
  | nil
  | bool (val : Bool)
  | int (val : EfficientInt)
  | f32 (bits : Nat)
  | f64 (bits : Nat)
  | arrayLen (len : Nat)
  | mapLen (len : Nat)
  | binLen (len : Nat)
  | strLen (len : Nat)
  | extMeta (len : Nat) (ty : Int)
  | bin (data : List Nat)
  | strBytes (data : List Nat)
  | ext (data : List Nat) (ty : Int)

/-- Well-formed arguments: lengths fit a `u32` (no length-conversion panic),
type tags are non-negative (no assertion panic), integers are valid
variants. -/
def WriteOp.wf : WriteOp → Prop
  | .nil => True
  | .bool _ => True
  | .int e => e.isValid
  | .f32 _ => True
  | .f64 _ => True
  | .arrayLen l => l < 4294967296
  | .mapLen l => l < 4294967296
  | .binLen l => l < 4294967296
  | .strLen l => l < 4294967296
  | .extMeta l ty => l < 4294967296 ∧ 0 ≤ ty
  | .bin d => d.length < 4294967296
  | .strBytes d => d.length < 4294967296
  | .ext d ty => d.length < 4294967296 ∧ 0 ≤ ty

/-- Dispatch an operation to the sink function it names. -/
def WriteOp.perform (op : WriteOp) (s : σ) : WOut σ ε :=
  match op with
  | .nil => write_nil sw s
  | .bool b => write_bool sw s b
  | .int e => write_int sw s e
  | .f32 bits => write_f32 sw s bits
  | .f64 bits => write_f64 sw s bits
  | .arrayLen l => write_array_len sw s l
  | .mapLen l => write_map_len sw s l
  | .binLen l => write_bin_len sw s l
  | .strLen l => write_str_len sw s l
  | .extMeta l ty => write_ext_meta sw s l ty
  | .bin d => write_bin sw s d
  | .strBytes d => write_str_bytes sw s d
  | .ext d ty => write_ext sw s d ty

/-- The byte chunks each operation hands to the underlying stream, in
order. -/
def WriteOp.chunks : WriteOp → List (List Nat)
  | .nil => [[0xc0]]
  | .bool b => [[if b then 0xc3 else 0xc2]]
  | .int e => intChunks e
  | .f32 bits => [[0xca], beBytes 4 bits]
  | .f64 bits => [[0xcb], beBytes 8 bits]
  | .arrayLen l => arrayLenChunks l
  | .mapLen l => mapLenChunks l
  | .binLen l => binLenChunks l
  | .strLen l => strLenChunks l
  | .extMeta l ty => extMetaChunks l ty
  | .bin d => binLenChunks d.length ++ [d]
  | .strBytes d => strLenChunks d.length ++ [d]
  | .ext d ty => extMetaChunks d.length ty ++ [d]

lemma perform_eq_runChunks (op : WriteOp) (h : op.wf) (s : σ) :
    op.perform sw s = runChunks sw s op.chunks := by
  cases op with
  | nil =>
    simp [WriteOp.perform, WriteOp.chunks, write_nil, write_marker, write_u8,
      runChunks, Marker.toU8, WOut.andThen_pure]
  | bool b =>
    cases b <;>
      simp [WriteOp.perform, WriteOp.chunks, write_bool, write_marker, write_u8,
        runChunks, Marker.toU8, WOut.andThen_pure]
  | int e =>
    simpa [WriteOp.perform, WriteOp.chunks, write_int] using
      write_efficient_int_chunks sw s e
  | f32 bits =>
    simp [WriteOp.perform, WriteOp.chunks, write_f32, write_marker, write_u8,
      runChunks, Marker.toU8, WOut.andThen_pure]
  | f64 bits =>
    simp [WriteOp.perform, WriteOp.chunks, write_f64, write_marker, write_u8,
      runChunks, Marker.toU8, WOut.andThen_pure]
  | arrayLen l =>
    simpa [WriteOp.perform, WriteOp.chunks] using write_array_len_chunks sw s l
  | mapLen l =>
    simpa [WriteOp.perform, WriteOp.chunks] using write_map_len_chunks sw s l
  | binLen l =>
    simpa [WriteOp.perform, WriteOp.chunks] using write_bin_len_chunks sw s l
  | strLen l =>
    simpa [WriteOp.perform, WriteOp.chunks] using write_str_len_chunks sw s l
  | extMeta l ty =>
    simpa [WriteOp.perform, WriteOp.chunks] using
      write_ext_meta_chunks sw s l ty h.2
  | bin d =>
    simp only [WriteOp.wf] at h
    simp only [WriteOp.perform, WriteOp.chunks, write_bin]
    rw [if_pos h, runChunks_append, write_bin_len_chunks]
    congr 1
    funext s'
    simp [runChunks, WOut.andThen_pure]
  | strBytes d =>
    simp only [WriteOp.wf] at h
    simp only [WriteOp.perform, WriteOp.chunks, write_str_bytes]
    rw [if_pos h, runChunks_append, write_str_len_chunks]
    congr 1
    funext s'
    simp [runChunks, WOut.andThen_pure]
  | ext d ty =>
    simp only [WriteOp.wf] at h
    simp only [WriteOp.perform, WriteOp.chunks, write_ext]
    rw [if_pos h.1, runChunks_append, write_ext_meta_chunks sw s d.length ty h.2]
    congr 1
    funext s'
    simp [runChunks, WOut.andThen_pure]

end MsgPackSink

/-- Number of leading chunks the capacity-limited stream accepts before the
first failing chunk. -/
def fitCount (base cap : Nat) : List (List Nat) → Nat
  | [] => 0
  | c :: cs => if base + c.length ≤ cap then fitCount (base + c.length) cap cs + 1 else 0

lemma runChunks_fw_ok (cs : List (List Nat)) (w : FW)
    (h : w.written.length + cs.flatten.length ≤ w.cap) :
    MsgPackSink.runChunks FW.stream w cs = .ok ⟨w.written ++ cs.flatten, w.cap⟩ := by
  induction cs generalizing w with
  | nil => simp [MsgPackSink.runChunks]
  | cons c cs ih =>
    simp only [List.flatten_cons, List.length_append] at h
    have hc : w.written.length + c.length ≤ w.cap := by omega
    simp only [MsgPackSink.runChunks, MsgPackSink.write_all, FW.stream, if_pos hc,
      WOut.andThen_ok]
    rw [ih ⟨w.written ++ c, w.cap⟩ (by simp only [List.length_append]; omega)]
    simp [List.flatten_cons, List.append_assoc]

lemma runChunks_fw_err (cs : List (List Nat)) (w : FW)
    (hne : cs ≠ []) (h : w.cap < w.written.length + cs.flatten.length) :
    MsgPackSink.runChunks FW.stream w cs =
      .ioError () ⟨w.written ++ (cs.take (fitCount w.written.length w.cap cs)).flatten,
        w.cap⟩ := by
  induction cs generalizing w with
  | nil => exact absurd rfl hne
  | cons c cs ih =>
    simp only [List.flatten_cons, List.length_append] at h
    by_cases hc : w.written.length + c.length ≤ w.cap
    · have hcs : cs ≠ [] := by
        rintro rfl
        simp only [List.flatten_nil, List.length_nil] at h
        omega
      simp only [MsgPackSink.runChunks, MsgPackSink.write_all, FW.stream, if_pos hc,
        WOut.andThen_ok]
      rw [ih ⟨w.written ++ c, w.cap⟩ hcs (by simp only [List.length_append]; omega)]
      simp only [fitCount, List.length_append, if_pos hc, List.take_succ_cons,
        List.flatten_cons, List.append_assoc]
    · simp only [MsgPackSink.runChunks, MsgPackSink.write_all, FW.stream, if_neg hc,
        WOut.andThen_ioError, fitCount, if_neg hc, List.take_zero, List.flatten_nil,
        List.append_nil]

/-- The external `rmpv::Value` dynamic tree, as traversed by `write_value`:
floats are modelled by their IEEE-754 bit patterns, strings by their UTF-8
bytes, integers by the mathematical value exposed through
`as_i64`/`as_u64`. -/
inductive RValue
  | nil
  | boolean (val : Bool)
  | integer (val : Int)
  | f32 (bits : Nat)
  | f64 (bits : Nat)
  | str (bytes : List Nat)
  | bin (bytes : List Nat)
  | array (elems : List RValue)
  | map (pairs : List (RValue × RValue))
  | ext (ty : Int) (bytes : List Nat)

/-- No panic at all in an outcome. -/
def WOut.panicFree (w : WOut σ ε) : Prop := ∀ p s', w ≠ .panicked p s'

/-- No length-conversion panic in an outcome. -/
def WOut.notLenPanic (w : WOut σ ε) : Prop := ∀ s', w ≠ .panicked .lenOverflow s'

lemma WOut.panicFree.notLenPanic {w : WOut σ ε} (h : w.panicFree) : w.notLenPanic :=
  fun s' => h _ s'

lemma WOut.notLenPanic_andThen {w : WOut σ ε} {f : σ → WOut σ ε}
    (hw : w.notLenPanic) (hf : ∀ s', (f s').notLenPanic) :
    (w.andThen f).notLenPanic := by
  cases w with
  | ok s => exact hf s
  | ioError e s => intro s' hcon; exact WOut.noConfusion hcon
  | panicked p s => simpa [WOut.andThen] using hw

lemma WOut.panicFree_andThen {w : WOut σ ε} {f : σ → WOut σ ε}
    (hw : w.panicFree) (hf : ∀ s', (f s').panicFree) :
    (w.andThen f).panicFree := by
  cases w with
  | ok s => exact hf s
  | ioError e s => intro p s' hcon; exact WOut.noConfusion hcon
  | panicked p s => simpa [WOut.andThen] using hw

namespace MsgPackSink

variable (sw : σ → List Nat → Except ε Unit × σ)

lemma write_all_panicFree (s : σ) (bs : List Nat) : (write_all sw s bs).panicFree := by
  unfold write_all
  rcases sw s bs with ⟨r, s'⟩
  cases r <;> (intro p u hcon; exact WOut.noConfusion hcon)

lemma runChunks_panicFree (s : σ) (cs : List (List Nat)) :
    (runChunks sw s cs).panicFree := by
  induction cs generalizing s with
  | nil => intro p u hcon; exact WOut.noConfusion hcon
  | cons c cs ih =>
    simp only [runChunks]
    exact WOut.panicFree_andThen (write_all_panicFree sw s c) fun s' => ih s'

lemma perform_panicFree (op : WriteOp) (h : op.wf) (s : σ) :
    (op.perform sw s).panicFree := by
  rw [perform_eq_runChunks sw op h s]
  exact runChunks_panicFree sw s _

lemma write_int_notLenPanic (s : σ) (e : EfficientInt) :
    (write_int sw s e).notLenPanic := by
  show (write_efficient_int sw s e).notLenPanic
  rw [write_efficient_int_chunks]
  exact (runChunks_panicFree sw s _).notLenPanic

lemma write_ext_meta_notLenPanic (s : σ) (len : Nat) (ty : Int) :
    (write_ext_meta sw s len ty).notLenPanic := by
  by_cases hty : ty < 0
  · simp only [write_ext_meta, if_pos hty]
    intro s' hcon
    simp at hcon
  · rw [write_ext_meta_chunks sw s len ty (by omega)]
    exact (runChunks_panicFree sw s _).notLenPanic

mutual

/-- `write_value`: depth-first recursive encoding of an `rmpv::Value`
(`boxed_local` recursion in the source). -/
def write_value (s : σ) : RValue → WOut σ ε
  | .nil => write_nil sw s
  | .boolean b => write_bool sw s b
  | .integer v =>
    if -9223372036854775808 ≤ v ∧ v < 9223372036854775808 then
      write_int sw s (.fromI64 v)
    else if 0 ≤ v ∧ v < 18446744073709551616 then
      write_int sw s (.fromU64 v.toNat)
    else .panicked .unreachableArm s
  | .f32 bits => write_f32 sw s bits
  | .f64 bits => write_f64 sw s bits
  | .str bytes => write_str_bytes sw s bytes
  | .bin bytes => write_bin sw s bytes
  | .array a =>
    if a.length < 4294967296 then
      (write_array_len sw s a.length).andThen fun s' => writeElems s' a
    else .panicked .lenOverflow s
  | .map m =>
    if m.length < 4294967296 then
      (write_map_len sw s m.length).andThen fun s' => writePairs s' m
    else .panicked .lenOverflow s
  | .ext ty bytes => write_ext sw s bytes ty

/-- The `for elem in a.iter()` loop of `write_value` on arrays. -/
def writeElems (s : σ) : List RValue → WOut σ ε
  | [] => .ok s
  | v :: vs => (write_value s v).andThen fun s' => writeElems s' vs

/-- The `for (k, v) in m.iter()` loop of `write_value` on maps. -/
def writePairs (s : σ) : List (RValue × RValue) → WOut σ ε
  | [] => .ok s
  | (k, v) :: ps =>
    (write_value s k).andThen fun s' =>
      (write_value s' v).andThen fun s'' => writePairs s'' ps

end

end MsgPackSink

mutual

/-- All array/map/string/binary/extension lengths in the tree fit a `u32`. -/
def noBigLens : RValue → Bool
  | .nil => true
  | .boolean _ => true
  | .integer _ => true
  | .f32 _ => true
  | .f64 _ => true
  | .str bytes => decide (bytes.length < 4294967296)
  | .bin bytes => decide (bytes.length < 4294967296)
  | .array a => decide (a.length < 4294967296) && noBigLensList a
  | .map m => decide (m.length < 4294967296) && noBigLensPairs m
  | .ext _ bytes => decide (bytes.length < 4294967296)

/-- `noBigLens` over array elements. -/
def noBigLensList : List RValue → Bool
  | [] => true
  | v :: vs => noBigLens v && noBigLensList vs

/-- `noBigLens` over map pairs. -/
def noBigLensPairs : List (RValue × RValue) → Bool
  | [] => true
  | (k, v) :: ps => noBigLens k && noBigLens v && noBigLensPairs ps

end

namespace MsgPackSink

variable (sw : σ → List Nat → Except ε Unit × σ)

mutual

/-- `write_value` never raises a length-conversion panic on a tree whose
lengths all fit a `u32`. -/
def writeValue_notLenPanic : (v : RValue) → ∀ s : σ, noBigLens v = true →
    (write_value sw s v).notLenPanic
  | .nil, s, _ => by
    simp only [write_value]
    exact (perform_panicFree sw .nil trivial s).notLenPanic
  | .boolean b, s, _ => by
    simp only [write_value]
    exact (perform_panicFree sw (.bool b) trivial s).notLenPanic
  | .integer v, s, _ => by
    simp only [write_value]
    split_ifs
    · exact write_int_notLenPanic sw s _
    · exact write_int_notLenPanic sw s _
    · intro s' hcon
      simp at hcon
  | .f32 bits, s, _ => by
    simp only [write_value]
    exact (perform_panicFree sw (.f32 bits) trivial s).notLenPanic
  | .f64 bits, s, _ => by
    simp only [write_value]
    exact (perform_panicFree sw (.f64 bits) trivial s).notLenPanic
  | .str bytes, s, h => by
    simp only [noBigLens, decide_eq_true_eq] at h
    simp only [write_value]
    exact (perform_panicFree sw (.strBytes bytes) h s).notLenPanic
  | .bin bytes, s, h => by
    simp only [noBigLens, decide_eq_true_eq] at h
    simp only [write_value]
    exact (perform_panicFree sw (.bin bytes) h s).notLenPanic
  | .array a, s, h => by
    simp only [noBigLens, Bool.and_eq_true, decide_eq_true_eq] at h
    simp only [write_value]
    rw [if_pos h.1]
    exact WOut.notLenPanic_andThen
      ((perform_panicFree sw (.arrayLen a.length) h.1 s).notLenPanic)
      fun s' => writeElems_notLenPanic a s' h.2
  | .map m, s, h => by
    simp only [noBigLens, Bool.and_eq_true, decide_eq_true_eq] at h
    simp only [write_value]
    rw [if_pos h.1]
    exact WOut.notLenPanic_andThen
      ((perform_panicFree sw (.mapLen m.length) h.1 s).notLenPanic)
      fun s' => writePairs_notLenPanic m s' h.2
  | .ext ty bytes, s, h => by
    simp only [noBigLens, decide_eq_true_eq] at h
    simp only [write_value, write_ext]
    rw [if_pos h]
    exact WOut.notLenPanic_andThen (write_ext_meta_notLenPanic sw s bytes.length ty)
      fun s' => (write_all_panicFree sw s' bytes).notLenPanic

/-- `writeElems` inherits length-panic freedom from its elements. -/
def writeElems_notLenPanic : (vs : List RValue) → ∀ s : σ, noBigLensList vs = true →
    (writeElems sw s vs).notLenPanic
  | [], s, _ => by
    simp only [writeElems]
    intro s' hcon
    exact WOut.noConfusion hcon
  | v :: vs, s, h => by
    simp only [noBigLensList, Bool.and_eq_true] at h
    simp only [writeElems]
    exact WOut.notLenPanic_andThen (writeValue_notLenPanic v s h.1)
      fun s' => writeElems_notLenPanic vs s' h.2

/-- `writePairs` inherits length-panic freedom from its keys and values. -/
def writePairs_notLenPanic : (ps : List (RValue × RValue)) → ∀ s : σ,
    noBigLensPairs ps = true → (writePairs sw s ps).notLenPanic
  | [], s, _ => by
    simp only [writePairs]
    intro s' hcon
    exact WOut.noConfusion hcon
  | (k, v) :: ps, s, h => by
    simp only [noBigLensPairs, Bool.and_eq_true] at h
    simp only [writePairs]
    exact WOut.notLenPanic_andThen (writeValue_notLenPanic k s h.1.1)
      fun s' => WOut.notLenPanic_andThen (writeValue_notLenPanic v s' h.1.2)
        fun s'' => writePairs_notLenPanic ps s'' h.2

end

lemma runChunks_pureStream (s : List Nat) (cs : List (List Nat)) :
    runChunks pureStream s cs = .ok (s ++ cs.flatten) := by
  induction cs generalizing s with
  | nil => simp [runChunks]
  | cons c cs ih =>
    simp only [runChunks, write_all_pureStream, WOut.andThen_ok, ih,
      List.flatten_cons, List.append_assoc]

end MsgPackSink

lemma fixArray_toU8 {L : Nat} (h : L ≤ 15) : (Marker.FixArray L).toU8 = 0x90 + L := by
  have hb : ∀ m : Fin 16, (Marker.FixArray m.val).toU8 = 0x90 + m.val := by decide
  exact hb ⟨L, by omega⟩

lemma fixMap_toU8 {L : Nat} (h : L ≤ 15) : (Marker.FixMap L).toU8 = 0x80 + L := by
  have hb : ∀ m : Fin 16, (Marker.FixMap m.val).toU8 = 0x80 + m.val := by decide
  exact hb ⟨L, by omega⟩

lemma fixStr_toU8 {L : Nat} (h : L ≤ 31) : (Marker.FixStr L).toU8 = 0xa0 + L := by
  have hb : ∀ m : Fin 32, (Marker.FixStr m.val).toU8 = 0xa0 + m.val := by decide
  exact hb ⟨L, by omega⟩

lemma write_efficient_int_pureStream (e : EfficientInt) (h : e.isValid) :
    MsgPackSink.write_efficient_int pureStream [] e = .ok e.encBytes := by
  cases e with
  | FixPos v => rfl
  | FixNeg v => rfl
  | U8 v =>
    simp only [EfficientInt.isValid] at h
    simp [MsgPackSink.write_efficient_int, MsgPackSink.write_marker,
      MsgPackSink.write_u8, MsgPackSink.write_all, pureStream, EfficientInt.encBytes,
      EfficientInt.markerOf, EfficientInt.payloadBytes, Marker.toU8, beBytes,
      WOut.andThen, Nat.mod_eq_of_lt h]
  | U16 v =>
    simp [MsgPackSink.write_efficient_int, MsgPackSink.write_marker,
      MsgPackSink.write_u8, MsgPackSink.write_u16, MsgPackSink.write_all, pureStream,
      EfficientInt.encBytes, EfficientInt.markerOf, EfficientInt.payloadBytes,
      Marker.toU8, WOut.andThen]
  | U32 v =>
    simp [MsgPackSink.write_efficient_int, MsgPackSink.write_marker,
      MsgPackSink.write_u8, MsgPackSink.write_u32, MsgPackSink.write_all, pureStream,
      EfficientInt.encBytes, EfficientInt.markerOf, EfficientInt.payloadBytes,
      Marker.toU8, WOut.andThen]
  | U64 v =>
    simp [MsgPackSink.write_efficient_int, MsgPackSink.write_marker,
      MsgPackSink.write_u8, MsgPackSink.write_u64, MsgPackSink.write_all, pureStream,
      EfficientInt.encBytes, EfficientInt.markerOf, EfficientInt.payloadBytes,
      Marker.toU8, WOut.andThen]
  | I8 v =>
    have hm : (v % 256).toNat % 256 = (v % 256).toNat := Nat.mod_eq_of_lt (by omega)
    simp [MsgPackSink.write_efficient_int, MsgPackSink.write_marker,
      MsgPackSink.write_u8, MsgPackSink.write_i8, MsgPackSink.write_all, pureStream,
      EfficientInt.encBytes, EfficientInt.markerOf, EfficientInt.payloadBytes,
      Marker.toU8, beBytes, WOut.andThen, hm]
  | I16 v =>
    simp [MsgPackSink.write_efficient_int, MsgPackSink.write_marker,
      MsgPackSink.write_u8, MsgPackSink.write_i16, MsgPackSink.write_all, pureStream,
      EfficientInt.encBytes, EfficientInt.markerOf, EfficientInt.payloadBytes,
      Marker.toU8, WOut.andThen]
  | I32 v =>
    simp [MsgPackSink.write_efficient_int, MsgPackSink.write_marker,
      MsgPackSink.write_u8, MsgPackSink.write_i32, MsgPackSink.write_all, pureStream,
      EfficientInt.encBytes, EfficientInt.markerOf, EfficientInt.payloadBytes,
      Marker.toU8, WOut.andThen]
  | I64 v =>
    simp [MsgPackSink.write_efficient_int, MsgPackSink.write_marker,
      MsgPackSink.write_u8, MsgPackSink.write_i64, MsgPackSink.write_all, pureStream,
      EfficientInt.encBytes, EfficientInt.markerOf, EfficientInt.payloadBytes,
      Marker.toU8, WOut.andThen]

/-- C1: for every native integer input, the `From` conversion yields a valid
variant that represents the input value exactly, and its encoded size (marker
byte plus payload bytes, 1 for FixPos/FixNeg, 2 for U8/I8, 3 for U16/I16, 5
for U32/I32, 9 for U64/I64) is less than or equal to the encoded size of every
other valid `EfficientInt` variant representing the same value — the output is
a smallest valid encoding. -/
theorem C1_minimal_exact_encoding (t : NativeTy) (v : Int) (h : t.inRange v) :
    (t.conv v).isValid ∧ (t.conv v).value = v ∧
      ∀ e' : EfficientInt, e'.isValid → e'.value = v → (t.conv v).size ≤ e'.size := by
  obtain ⟨hlo, hhi⟩ := t.inRange_bounds v h
  rw [t.conv_eq_fromI64 v h]
  obtain ⟨hv, hval, hsz⟩ := EfficientInt.fromI64_spec v hlo hhi
  refine ⟨hv, hval, fun e' hv' hval' => ?_⟩
  rw [hsz]
  have hle := EfficientInt.minSizeOf_le_size e' hv'
  rw [hval'] at hle
  exact hle

/-- Witness for C1 at the `u16` input 1000. -/
theorem C1_minimal_exact_encoding_witness :
    (NativeTy.u16.conv 1000).value = 1000 ∧
      (NativeTy.u16.conv 1000).size ≤ (EfficientInt.I16 1000).size :=
  ⟨(C1_minimal_exact_encoding .u16 1000 (by decide)).2.1,
    (C1_minimal_exact_encoding .u16 1000 (by decide)).2.2 (.I16 1000) (by decide)
      (by decide)⟩

/-- C2: the boundary table holds exactly, at every native width that can hold
each value: 127→FixPos, 128→U8, 255→U8, 256→U16, 65535→U16, 65536→U32,
4294967295→U32, 4294967296→U64, -1→FixNeg, -32→FixNeg, -33→I8, -128→I8,
-129→I16, -32768→I16, -32769→I32, -2147483648→I32, -2147483649→I64. -/
theorem C2_boundary_table :
    (EfficientInt.fromU8 127 = .FixPos 127 ∧ EfficientInt.fromU16 127 = .FixPos 127 ∧
      EfficientInt.fromU32 127 = .FixPos 127 ∧ EfficientInt.fromU64 127 = .FixPos 127 ∧
      EfficientInt.fromI8 127 = .FixPos 127 ∧ EfficientInt.fromI16 127 = .FixPos 127 ∧
      EfficientInt.fromI32 127 = .FixPos 127 ∧ EfficientInt.fromI64 127 = .FixPos 127) ∧
    (EfficientInt.fromU8 128 = .U8 128 ∧ EfficientInt.fromU16 128 = .U8 128 ∧
      EfficientInt.fromU32 128 = .U8 128 ∧ EfficientInt.fromU64 128 = .U8 128 ∧
      EfficientInt.fromI16 128 = .U8 128 ∧ EfficientInt.fromI32 128 = .U8 128 ∧
      EfficientInt.fromI64 128 = .U8 128) ∧
    (EfficientInt.fromU8 255 = .U8 255 ∧ EfficientInt.fromU16 255 = .U8 255 ∧
      EfficientInt.fromU32 255 = .U8 255 ∧ EfficientInt.fromU64 255 = .U8 255 ∧
      EfficientInt.fromI16 255 = .U8 255 ∧ EfficientInt.fromI32 255 = .U8 255 ∧
      EfficientInt.fromI64 255 = .U8 255) ∧
    (EfficientInt.fromU16 256 = .U16 256 ∧ EfficientInt.fromU32 256 = .U16 256 ∧
      EfficientInt.fromU64 256 = .U16 256 ∧ EfficientInt.fromI16 256 = .U16 256 ∧
      EfficientInt.fromI32 256 = .U16 256 ∧ EfficientInt.fromI64 256 = .U16 256) ∧
    (EfficientInt.fromU16 65535 = .U16 65535 ∧ EfficientInt.fromU32 65535 = .U16 65535 ∧
      EfficientInt.fromU64 65535 = .U16 65535 ∧ EfficientInt.fromI32 65535 = .U16 65535 ∧
      EfficientInt.fromI64 65535 = .U16 65535) ∧
    (EfficientInt.fromU32 65536 = .U32 65536 ∧ EfficientInt.fromU64 65536 = .U32 65536 ∧
      EfficientInt.fromI32 65536 = .U32 65536 ∧ EfficientInt.fromI64 65536 = .U32 65536) ∧
    (EfficientInt.fromU32 4294967295 = .U32 4294967295 ∧
      EfficientInt.fromU64 4294967295 = .U32 4294967295 ∧
      EfficientInt.fromI64 4294967295 = .U32 4294967295) ∧
    (EfficientInt.fromU64 4294967296 = .U64 4294967296 ∧
      EfficientInt.fromI64 4294967296 = .U64 4294967296) ∧
    (EfficientInt.fromI8 (-1) = .FixNeg (-1) ∧ EfficientInt.fromI16 (-1) = .FixNeg (-1) ∧
      EfficientInt.fromI32 (-1) = .FixNeg (-1) ∧ EfficientInt.fromI64 (-1) = .FixNeg (-1)) ∧
    (EfficientInt.fromI8 (-32) = .FixNeg (-32) ∧ EfficientInt.fromI16 (-32) = .FixNeg (-32) ∧
      EfficientInt.fromI32 (-32) = .FixNeg (-32) ∧ EfficientInt.fromI64 (-32) = .FixNeg (-32)) ∧
    (EfficientInt.fromI8 (-33) = .I8 (-33) ∧ EfficientInt.fromI16 (-33) = .I8 (-33) ∧
      EfficientInt.fromI32 (-33) = .I8 (-33) ∧ EfficientInt.fromI64 (-33) = .I8 (-33)) ∧
    (EfficientInt.fromI8 (-128) = .I8 (-128) ∧ EfficientInt.fromI16 (-128) = .I8 (-128) ∧
      EfficientInt.fromI32 (-128) = .I8 (-128) ∧ EfficientInt.fromI64 (-128) = .I8 (-128)) ∧
    (EfficientInt.fromI16 (-129) = .I16 (-129) ∧ EfficientInt.fromI32 (-129) = .I16 (-129) ∧
      EfficientInt.fromI64 (-129) = .I16 (-129)) ∧
    (EfficientInt.fromI16 (-32768) = .I16 (-32768) ∧
      EfficientInt.fromI32 (-32768) = .I16 (-32768) ∧
      EfficientInt.fromI64 (-32768) = .I16 (-32768)) ∧
    (EfficientInt.fromI32 (-32769) = .I32 (-32769) ∧
      EfficientInt.fromI64 (-32769) = .I32 (-32769)) ∧
    (EfficientInt.fromI32 (-2147483648) = .I32 (-2147483648) ∧
      EfficientInt.fromI64 (-2147483648) = .I32 (-2147483648)) ∧
    EfficientInt.fromI64 (-2147483649) = .I64 (-2147483649) := by
  refine ⟨?_, ?_, ?_, ?_, ?_, ?_, ?_, ?_, ?_, ?_, ?_, ?_, ?_, ?_, ?_, ?_, ?_⟩ <;> decide

/-- C3: the chosen variant depends only on the mathematical value, not on the
native width it arrives in: any two native types that both hold `v` convert it
to the same `EfficientInt` (same variant, same payload). -/
theorem C3_width_independence (t1 t2 : NativeTy) (v : Int)
    (h1 : t1.inRange v) (h2 : t2.inRange v) : t1.conv v = t2.conv v := by
  rw [t1.conv_eq_fromI64 v h1, t2.conv_eq_fromI64 v h2]

/-- Witness for C3: `u8` and `i64` agree at 100. -/
theorem C3_width_independence_witness :
    NativeTy.u8.conv 100 = NativeTy.i64.conv 100 :=
  C3_width_independence .u8 .i64 100 (by decide) (by decide)

/-- C4: `write_int` emits exactly the marker byte of the minimal variant
followed by that variant's big-endian payload at the variant's width (no
payload for the FixPos/FixNeg forms); in particular 4294967296 emits the U64
marker 0xcf followed by the 8-byte big-endian value 0x0000000100000000. -/
theorem C4_write_int_emits_marker_payload :
    (∀ (t : NativeTy) (v : Int), t.inRange v →
      MsgPackSink.write_int pureStream [] (t.conv v) =
        .ok ((t.conv v).markerOf.toU8 :: (t.conv v).payloadBytes)) ∧
    MsgPackSink.write_int pureStream [] (NativeTy.u64.conv 4294967296) =
      .ok [0xcf, 0x00, 0x00, 0x00, 0x01, 0x00, 0x00, 0x00, 0x00] := by
  constructor
  · intro t v h
    obtain ⟨hlo, hhi⟩ := t.inRange_bounds v h
    have hval : (t.conv v).isValid := by
      rw [t.conv_eq_fromI64 v h]
      exact (EfficientInt.fromI64_spec v hlo hhi).1
    simpa [EfficientInt.encBytes] using
      write_efficient_int_pureStream (t.conv v) hval
  · decide

/-- Witness for C4 at the `u16` input 300. -/
theorem C4_write_int_emits_marker_payload_witness :
    MsgPackSink.write_int pureStream [] (NativeTy.u16.conv 300) =
      .ok ((NativeTy.u16.conv 300).markerOf.toU8 :: (NativeTy.u16.conv 300).payloadBytes) :=
  C4_write_int_emits_marker_payload.1 .u16 300 (by decide)

/-- C5: `write_array_len` and `write_map_len` pick the length class purely by
magnitude: 0–15 is one fixed marker byte carrying the count inline, 16–65535 is
the 16-bit marker plus a big-endian 16-bit count, anything larger is the
32-bit marker plus a big-endian 32-bit count. -/
theorem C5_array_map_len_classes (L : Nat) (hL : L < 4294967296) :
    (L ≤ 15 →
      MsgPackSink.write_array_len pureStream [] L = .ok [0x90 + L] ∧
      MsgPackSink.write_map_len pureStream [] L = .ok [0x80 + L]) ∧
    (16 ≤ L → L ≤ 65535 →
      MsgPackSink.write_array_len pureStream [] L = .ok (0xdc :: beBytes 2 L) ∧
      MsgPackSink.write_map_len pureStream [] L = .ok (0xde :: beBytes 2 L)) ∧
    (65535 < L →
      MsgPackSink.write_array_len pureStream [] L = .ok (0xdd :: beBytes 4 L) ∧
      MsgPackSink.write_map_len pureStream [] L = .ok (0xdf :: beBytes 4 L)) := by
  refine ⟨fun h15 => ⟨?_, ?_⟩, fun h16 h65 => ⟨?_, ?_⟩, fun h65 => ⟨?_, ?_⟩⟩
  · rw [MsgPackSink.write_array_len_chunks, MsgPackSink.runChunks_pureStream]
    simp only [MsgPackSink.arrayLenChunks, if_pos h15]
    simp [fixArray_toU8 h15]
  · rw [MsgPackSink.write_map_len_chunks, MsgPackSink.runChunks_pureStream]
    simp only [MsgPackSink.mapLenChunks, if_pos h15]
    simp [fixMap_toU8 h15]
  · rw [MsgPackSink.write_array_len_chunks, MsgPackSink.runChunks_pureStream]
    simp only [MsgPackSink.arrayLenChunks]
    rw [if_neg (by omega), if_pos h65]
    simp
  · rw [MsgPackSink.write_map_len_chunks, MsgPackSink.runChunks_pureStream]
    simp only [MsgPackSink.mapLenChunks]
    rw [if_neg (by omega), if_pos h65]
    simp
  · rw [MsgPackSink.write_array_len_chunks, MsgPackSink.runChunks_pureStream]
    simp only [MsgPackSink.arrayLenChunks]
    rw [if_neg (by omega), if_neg (by omega)]
    simp
  · rw [MsgPackSink.write_map_len_chunks, MsgPackSink.runChunks_pureStream]
    simp only [MsgPackSink.mapLenChunks]
    rw [if_neg (by omega), if_neg (by omega)]
    simp

/-- Witness for C5 at the boundary lengths 15 and 16. -/
theorem C5_array_map_len_classes_witness :
    MsgPackSink.write_array_len pureStream [] 15 = .ok [0x90 + 15] ∧
    MsgPackSink.write_array_len pureStream [] 16 = .ok (0xdc :: beBytes 2 16) :=
  ⟨((C5_array_map_len_classes 15 (by decide)).1 (by decide)).1,
    ((C5_array_map_len_classes 16 (by decide)).2.1 (by decide) (by decide)).1⟩

/-- C6: `write_str_len` uses the inline FixStr form for lengths up to 31, then
the 8/16/32-bit length classes; `write_bin_len` uses the same thresholds but
has no inline form, so every length up to 255 (including 0) is Bin8. -/
theorem C6_str_bin_len_classes (L : Nat) (hL : L < 4294967296) :
    (L ≤ 31 → MsgPackSink.write_str_len pureStream [] L = .ok [0xa0 + L]) ∧
    (32 ≤ L → L ≤ 255 →
      MsgPackSink.write_str_len pureStream [] L = .ok [0xd9, L]) ∧
    (256 ≤ L → L ≤ 65535 →
      MsgPackSink.write_str_len pureStream [] L = .ok (0xda :: beBytes 2 L)) ∧
    (65535 < L →
      MsgPackSink.write_str_len pureStream [] L = .ok (0xdb :: beBytes 4 L)) ∧
    (L ≤ 255 → MsgPackSink.write_bin_len pureStream [] L = .ok [0xc4, L]) ∧
    (256 ≤ L → L ≤ 65535 →
      MsgPackSink.write_bin_len pureStream [] L = .ok (0xc5 :: beBytes 2 L)) ∧
    (65535 < L →
      MsgPackSink.write_bin_len pureStream [] L = .ok (0xc6 :: beBytes 4 L)) := by
  refine ⟨fun h31 => ?_, fun h32 h255 => ?_, fun ha hb => ?_, fun h65 => ?_,
    fun h255 => ?_, fun ha hb => ?_, fun h65 => ?_⟩
  · rw [MsgPackSink.write_str_len_chunks, MsgPackSink.runChunks_pureStream]
    simp only [MsgPackSink.strLenChunks]
    rw [if_pos (by omega), if_pos (by omega)]
    simp [fixStr_toU8 h31]
  · rw [MsgPackSink.write_str_len_chunks, MsgPackSink.runChunks_pureStream]
    simp only [MsgPackSink.strLenChunks]
    rw [if_pos (by omega), if_neg (by omega)]
    simp
  · rw [MsgPackSink.write_str_len_chunks, MsgPackSink.runChunks_pureStream]
    simp only [MsgPackSink.strLenChunks]
    rw [if_neg (by omega), if_pos (by omega)]
    simp
  · rw [MsgPackSink.write_str_len_chunks, MsgPackSink.runChunks_pureStream]
    simp only [MsgPackSink.strLenChunks]
    rw [if_neg (by omega), if_neg (by omega)]
    simp
  · rw [MsgPackSink.write_bin_len_chunks, MsgPackSink.runChunks_pureStream]
    simp only [MsgPackSink.binLenChunks]
    rw [if_pos (by omega)]
    simp
  · rw [MsgPackSink.write_bin_len_chunks, MsgPackSink.runChunks_pureStream]
    simp only [MsgPackSink.binLenChunks]
    rw [if_neg (by omega), if_pos (by omega)]
    simp
  · rw [MsgPackSink.write_bin_len_chunks, MsgPackSink.runChunks_pureStream]
    simp only [MsgPackSink.binLenChunks]
    rw [if_neg (by omega), if_neg (by omega)]
    simp

/-- Witness for C6 at lengths 0 and 31. -/
theorem C6_str_bin_len_classes_witness :
    MsgPackSink.write_str_len pureStream [] 31 = .ok [0xa0 + 31] ∧
    MsgPackSink.write_bin_len pureStream [] 0 = .ok [0xc4, 0] :=
  ⟨(C6_str_bin_len_classes 31 (by decide)).1 (by decide),
    (C6_str_bin_len_classes 0 (by decide)).2.2.2.2.1 (by decide)⟩

/-- C7: `write_ext_meta` uses the fixed FixExt1/2/4/8/16 markers exactly for
lengths 1, 2, 4, 8, 16; every other length up to 255 (including 0 and 17) is
Ext8 plus a one-byte length, 256–65535 is Ext16 plus a big-endian two-byte
length, larger is Ext32 plus a big-endian four-byte length; the one-byte type
tag always follows as the last header byte. -/
theorem C7_ext_meta_classes (L : Nat) (ty : Int) (hL : L < 4294967296)
    (h0 : 0 ≤ ty) (h127 : ty ≤ 127) :
    (L = 1 → MsgPackSink.write_ext_meta pureStream [] L ty = .ok [0xd4, ty.toNat]) ∧
    (L = 2 → MsgPackSink.write_ext_meta pureStream [] L ty = .ok [0xd5, ty.toNat]) ∧
    (L = 4 → MsgPackSink.write_ext_meta pureStream [] L ty = .ok [0xd6, ty.toNat]) ∧
    (L = 8 → MsgPackSink.write_ext_meta pureStream [] L ty = .ok [0xd7, ty.toNat]) ∧
    (L = 16 → MsgPackSink.write_ext_meta pureStream [] L ty = .ok [0xd8, ty.toNat]) ∧
    (L ≤ 255 → L ≠ 1 → L ≠ 2 → L ≠ 4 → L ≠ 8 → L ≠ 16 →
      MsgPackSink.write_ext_meta pureStream [] L ty = .ok [0xc7, L, ty.toNat]) ∧
    (256 ≤ L → L ≤ 65535 →
      MsgPackSink.write_ext_meta pureStream [] L ty =
        .ok (0xc8 :: (beBytes 2 L ++ [ty.toNat]))) ∧
    (65535 < L →
      MsgPackSink.write_ext_meta pureStream [] L ty =
        .ok (0xc9 :: (beBytes 4 L ++ [ty.toNat]))) := by
  have hm : (ty % 256).toNat = ty.toNat := by omega
  refine ⟨fun h => ?_, fun h => ?_, fun h => ?_, fun h => ?_, fun h => ?_,
    fun h255 h1 h2 h4 h8 h16 => ?_, fun ha hb => ?_, fun h65 => ?_⟩
  · subst h
    rw [MsgPackSink.write_ext_meta_chunks pureStream [] 1 ty h0,
      MsgPackSink.runChunks_pureStream]
    simp [MsgPackSink.extMetaChunks, hm]
  · subst h
    rw [MsgPackSink.write_ext_meta_chunks pureStream [] 2 ty h0,
      MsgPackSink.runChunks_pureStream]
    simp [MsgPackSink.extMetaChunks, hm]
  · subst h
    rw [MsgPackSink.write_ext_meta_chunks pureStream [] 4 ty h0,
      MsgPackSink.runChunks_pureStream]
    simp [MsgPackSink.extMetaChunks, hm]
  · subst h
    rw [MsgPackSink.write_ext_meta_chunks pureStream [] 8 ty h0,
      MsgPackSink.runChunks_pureStream]
    simp [MsgPackSink.extMetaChunks, hm]
  · subst h
    rw [MsgPackSink.write_ext_meta_chunks pureStream [] 16 ty h0,
      MsgPackSink.runChunks_pureStream]
    simp [MsgPackSink.extMetaChunks, hm]
  · rw [MsgPackSink.write_ext_meta_chunks pureStream [] L ty h0,
      MsgPackSink.runChunks_pureStream]
    simp only [MsgPackSink.extMetaChunks]
    rw [if_pos (by omega), if_neg h1, if_neg h2, if_neg h4, if_neg h8, if_neg h16]
    simp [hm]
  · rw [MsgPackSink.write_ext_meta_chunks pureStream [] L ty h0,
      MsgPackSink.runChunks_pureStream]
    simp only [MsgPackSink.extMetaChunks]
    rw [if_neg (by omega), if_pos (by omega)]
    simp [hm]
  · rw [MsgPackSink.write_ext_meta_chunks pureStream [] L ty h0,
      MsgPackSink.runChunks_pureStream]
    simp only [MsgPackSink.extMetaChunks]
    rw [if_neg (by omega), if_neg (by omega)]
    simp [hm]

/-- Witness for C7 at lengths 16 and 17 with type tag 42. -/
theorem C7_ext_meta_classes_witness :
    MsgPackSink.write_ext_meta pureStream [] 16 42 = .ok [0xd8, (42 : Int).toNat] ∧
    MsgPackSink.write_ext_meta pureStream [] 17 42 = .ok [0xc7, 17, (42 : Int).toNat] :=
  ⟨(C7_ext_meta_classes 16 42 (by decide) (by decide) (by decide)).2.2.2.2.1 rfl,
    (C7_ext_meta_classes 17 42 (by decide) (by decide) (by decide)).2.2.2.2.2.1
      (by decide) (by decide) (by decide) (by decide) (by decide) (by decide)⟩

/-- C8: `write_ext_meta` rejects a negative extension type tag at the call
boundary: for `ty < 0` it panics with the assertion before writing any bytes
(the stream state in the outcome is the initial one), and for `ty ≥ 0` the
assertion never fires — no outcome of the operation is a panic. -/
theorem C8_ext_meta_rejects_negative {σ ε : Type}
    (sw : σ → List Nat → Except ε Unit × σ) (s : σ) (len : Nat) (ty : Int) :
    (ty < 0 → MsgPackSink.write_ext_meta sw s len ty = .panicked .negTypeTag s) ∧
    (0 ≤ ty → (MsgPackSink.write_ext_meta sw s len ty).panicFree) := by
  constructor
  · intro hty
    simp only [MsgPackSink.write_ext_meta, if_pos hty]
  · intro hty
    rw [MsgPackSink.write_ext_meta_chunks sw s len ty hty]
    exact MsgPackSink.runChunks_panicFree sw s _

/-- Witness for C8 at type tag -1. -/
theorem C8_ext_meta_rejects_negative_witness :
    MsgPackSink.write_ext_meta pureStream [] 4 (-1) = .panicked .negTypeTag [] :=
  (C8_ext_meta_rejects_negative pureStream [] 4 (-1)).1 (by decide)

/-- C9: every public write operation of the sink performs exactly its chunk
sequence of underlying `write_all` calls, aborted at the first failure — so it
returns `ok` carrying the stream only when every underlying write succeeded.
Against the capacity-limited fault stream: if the whole encoding fits, the
outcome is `ok` with exactly the full encoding appended; otherwise the first
failing chunk's I/O error is returned immediately and only the chunks before
it have been written. -/
theorem C9_failure_semantics :
    (∀ (σ ε : Type) (sw : σ → List Nat → Except ε Unit × σ)
        (op : MsgPackSink.WriteOp) (s : σ), op.wf →
        op.perform sw s = MsgPackSink.runChunks sw s op.chunks) ∧
    (∀ (cs : List (List Nat)) (w : FW),
        (w.written.length + cs.flatten.length ≤ w.cap →
          MsgPackSink.runChunks FW.stream w cs = .ok ⟨w.written ++ cs.flatten, w.cap⟩) ∧
        (cs ≠ [] → w.cap < w.written.length + cs.flatten.length →
          MsgPackSink.runChunks FW.stream w cs =
            .ioError () ⟨w.written ++
              (cs.take (fitCount w.written.length w.cap cs)).flatten, w.cap⟩)) :=
  ⟨fun _ _ sw op s h => MsgPackSink.perform_eq_runChunks sw op h s,
    fun cs w => ⟨fun h => runChunks_fw_ok cs w h,
      fun hne h => runChunks_fw_err cs w hne h⟩⟩

/-- Witness for C9: `write_nil` equals its chunk run, and a capacity-5 stream
accepts the nil marker. -/
theorem C9_failure_semantics_witness :
    (MsgPackSink.WriteOp.perform pureStream MsgPackSink.WriteOp.nil [] =
      MsgPackSink.runChunks pureStream [] (MsgPackSink.WriteOp.chunks .nil)) ∧
    MsgPackSink.runChunks FW.stream ⟨[], 5⟩ [[0xc0]] = .ok ⟨[0xc0], 5⟩ := by
  constructor
  · exact C9_failure_semantics.1 (List Nat) Empty pureStream .nil [] trivial
  · have h := (C9_failure_semantics.2 [[0xc0]] ⟨[], 5⟩).1 (by simp)
    simpa using h

/-- C10: with 64-bit slice lengths, `write_bin`, `write_str_bytes` and
`write_ext` panic on the length conversion — before emitting any bytes — when
the payload exceeds 2^32-1 bytes, and `write_value` panics when an array or
map node declares more than 2^32-1 children/pairs; for inputs whose lengths
all fit a `u32`, none of these operations raises the length-conversion
panic. -/
theorem C10_length_conversion_panics :
    (∀ (σ ε : Type) (sw : σ → List Nat → Except ε Unit × σ) (s : σ)
        (data : List Nat), 4294967296 ≤ data.length →
        MsgPackSink.write_bin sw s data = .panicked .lenOverflow s ∧
        MsgPackSink.write_str_bytes sw s data = .panicked .lenOverflow s ∧
        ∀ ty : Int, MsgPackSink.write_ext sw s data ty = .panicked .lenOverflow s) ∧
    (∀ (σ ε : Type) (sw : σ → List Nat → Except ε Unit × σ) (s : σ)
        (a : List RValue), 4294967296 ≤ a.length →
        MsgPackSink.write_value sw s (.array a) = .panicked .lenOverflow s) ∧
    (∀ (σ ε : Type) (sw : σ → List Nat → Except ε Unit × σ) (s : σ)
        (m : List (RValue × RValue)), 4294967296 ≤ m.length →
        MsgPackSink.write_value sw s (.map m) = .panicked .lenOverflow s) ∧
    (∀ (σ ε : Type) (sw : σ → List Nat → Except ε Unit × σ) (s : σ)
        (data : List Nat), data.length < 4294967296 →
        (MsgPackSink.write_bin sw s data).notLenPanic ∧
        (MsgPackSink.write_str_bytes sw s data).notLenPanic ∧
        ∀ ty : Int, (MsgPackSink.write_ext sw s data ty).notLenPanic) ∧
    (∀ (σ ε : Type) (sw : σ → List Nat → Except ε Unit × σ) (s : σ) (v : RValue),
        noBigLens v = true → (MsgPackSink.write_value sw s v).notLenPanic) := by
  refine ⟨?_, ?_, ?_, ?_, ?_⟩
  · intro σ ε sw s data h
    refine ⟨?_, ?_, fun ty => ?_⟩ <;>
      (simp only [MsgPackSink.write_bin, MsgPackSink.write_str_bytes,
        MsgPackSink.write_ext]
       rw [if_neg (by omega)])
  · intro σ ε sw s a h
    simp only [MsgPackSink.write_value]
    rw [if_neg (by omega)]
  · intro σ ε sw s m h
    simp only [MsgPackSink.write_value]
    rw [if_neg (by omega)]
  · intro σ ε sw s data h
    refine ⟨?_, ?_, fun ty => ?_⟩
    · exact (MsgPackSink.perform_panicFree sw (.bin data) h s).notLenPanic
    · exact (MsgPackSink.perform_panicFree sw (.strBytes data) h s).notLenPanic
    · simp only [MsgPackSink.write_ext]
      rw [if_pos h]
      exact WOut.notLenPanic_andThen
        (MsgPackSink.write_ext_meta_notLenPanic sw s data.length ty)
        fun s' => (MsgPackSink.write_all_panicFree sw s' data).notLenPanic
  · intro σ ε sw s v h
    exact MsgPackSink.writeValue_notLenPanic sw v s h

/-- Witness for C10: a 2^32-byte payload and a 2^32-element array panic; a
3-byte payload does not. -/
theorem C10_length_conversion_panics_witness :
    MsgPackSink.write_bin pureStream [] (List.replicate 4294967296 0) =
      .panicked .lenOverflow [] ∧
    MsgPackSink.write_value pureStream [] (.array (List.replicate 4294967296 .nil)) =
      .panicked .lenOverflow [] ∧
    (MsgPackSink.write_bin pureStream [] [1, 2, 3]).notLenPanic := by
  refine ⟨?_, ?_, ?_⟩
  · exact (C10_length_conversion_panics.1 (List Nat) Empty pureStream []
      (List.replicate 4294967296 0) (by rw [List.length_replicate])).1
  · exact C10_length_conversion_panics.2.1 (List Nat) Empty pureStream []
      (List.replicate 4294967296 .nil) (by rw [List.length_replicate])
  · exact (C10_length_conversion_panics.2.2.2.1 (List Nat) Empty pureStream []
      [1, 2, 3] (by decide)).1
